import Mathlib

/-!
Verification development for the logspout-logstash multi-line coalescing
engine (`multiline/multiline.go`) and its buffer cache / adapter
(`logstash.go`).

The Go source ships two variants of the engine:
* a mutating-method variant (`MultiLine.Buffer` / `Flush` / `Expire` /
  `StartNewLine` / `addPending`), used by the adapter in `logstash.go`;
* a functional-update variant (`Step` / `Flush` / `addPending` as free
  functions taking and returning a `MultiLine` value), whose `Flush`
  mutates the first pending message in place through its pointer.

We embed the mutating-method variant as pure state-passing functions over
message *values* (that variant never writes through a message pointer, so
value semantics are observationally faithful), and separately embed both
variants over an explicit heap of messages, where pointer mutation is
observable (needed for the immutability claims).

`regexp.Regexp.MatchString` is embedded as an opaque predicate
`String → Bool`, as the spec treats pattern matching as an opaque
continuation predicate. Go `time.Time`/`time.Duration` are embedded as
`Int` (nanoseconds); `t.Sub(lastTouched) > ttl` becomes
`t - lastTouched > ttl`.
-/

/-- `router.Message`: `Data` is the line text; `containerID` and `source`
are the fields of the message used by the adapter to form the cache key
(`msg.Container.ID + msg.Source`); `meta` abstracts all remaining
identity/metadata carried by the message (name, image, hostname, labels,
timestamp, ...), which the engine copies but never inspects. -/
structure Message (α : Type) where
  data : String
  containerID : String
  source : String
  meta : α
  deriving Repr, DecidableEq

instance [Inhabited α] : Inhabited (Message α) := ⟨⟨"", "", "", default⟩⟩

/-- `type matcher func(lastText, currentText string) bool` -/
def matcher : Type := String → String → Bool

/-- `MultilineConfig` (multiline.go). `Pattern` stands for the compiled
regular expression, embedded as its `MatchString` predicate. -/
structure MultilineConfig where
  Pattern : String → Bool
  GroupWith : String
  Negate : Bool
  Separator : Option String
  MaxLines : Int

/-- `defaultMaxLines = 1 << 10` -/
def defaultMaxLines : Nat := 1 <<< 10

/-- `defaultSeparator = "\n"` -/
def defaultSeparator : String := "\n"

/-- `genPatternMatcher(regex, sel)`: tests the regex against the line
selected by `sel` (the Go function also returns a nil error, dropped
here). -/
def genPatternMatcher (regex : String → Bool)
    (sel : String → String → String) : matcher :=
  fun lastText currentText => regex (sel lastText currentText)

/-- `previousMatcher`: selects `currentText`. -/
def previousMatcher (regex : String → Bool) : matcher :=
  genPatternMatcher regex (fun _lastText currentText => currentText)

/-- `nextMatcher`: selects `lastText`. -/
def nextMatcher (regex : String → Bool) : matcher :=
  genPatternMatcher regex (fun lastText _currentText => lastText)

/-- `negatedMatcher` -/
def negatedMatcher (m : matcher) : matcher :=
  fun lastText currentText => !(m lastText currentText)

/-- `MultiLine` (mutating-method variant), over message values. -/
structure MultiLine (α : Type) where
  isMultiline : matcher
  maxLines : Nat
  separator : String
  pending : List (Message α)
  LastTouched : Int

/-- `NewMultiLine(config)`: selects the matcher by `GroupWith` (map with
keys `"next"` and `"previous"`; anything else is an error and no engine
is created), optionally negates it, and applies the defaults for
`MaxLines` (when not > 0) and `Separator` (when nil). The fresh engine
has zero-value `pending` (empty) and `LastTouched`. -/
def NewMultiLine (α : Type) (config : MultilineConfig) :
    Except String (MultiLine α) := do
  let matcherType ←
    match config.GroupWith with
    | "next" => Except.ok nextMatcher
    | "previous" => Except.ok previousMatcher
    | other => Except.error ("unknown matcher type: " ++ other)
  let m := matcherType config.Pattern
  let m := if config.Negate then negatedMatcher m else m
  let maxLines := if config.MaxLines > 0 then config.MaxLines.toNat
    else defaultMaxLines
  let separator := config.Separator.getD defaultSeparator
  Except.ok { isMultiline := m, separator := separator, maxLines := maxLines,
              pending := [], LastTouched := 0 }

namespace MultiLine

variable {α : Type} [Inhabited α]

/-- `PendingSize` -/
def PendingSize (ml : MultiLine α) : Nat := ml.pending.length

/-- `getLastPendingData` (`ml.pending[ml.PendingSize()-1].Data`; only
called with pending non-empty). -/
def getLastPendingData (ml : MultiLine α) : String :=
  (ml.pending.getD (ml.PendingSize - 1) default).data

/-- `isContinuationMessage` -/
def isContinuationMessage (ml : MultiLine α) (msg : Message α) : Bool :=
  ml.PendingSize == 0 || ml.isMultiline (ml.getLastPendingData) msg.data

/-- `addPending`: appends below the cap; at the cap appends a copy of the
message with `Data = "[Truncated]"`; above the cap drops the message.
Always returns nil (no record). -/
def addPending (ml : MultiLine α) (next : Message α) :
    MultiLine α × Option (Message α) :=
  if ml.PendingSize < ml.maxLines then
    ({ ml with pending := ml.pending ++ [next] }, none)
  else if ml.PendingSize == ml.maxLines then
    ({ ml with pending := ml.pending ++ [{ next with data := "[Truncated]" }] },
     none)
  else (ml, none)

/-- `Flush`: when pending is non-empty, the record is a copy of
`pending[0]` whose `Data` is the pending texts joined by the separator;
otherwise nil. The Go method only reads the receiver, so the state is
returned unchanged. -/
def Flush (ml : MultiLine α) : MultiLine α × Option (Message α) :=
  if ml.PendingSize > 0 then
    (ml, some { ml.pending.getD 0 default with
                data := String.intercalate ml.separator
                  (ml.pending.map (fun message => message.data)) })
  else (ml, none)

/-- `StartNewLine`: flush, then reset pending to the single new message. -/
def StartNewLine (ml : MultiLine α) (next : Message α) :
    MultiLine α × Option (Message α) :=
  let (ml, msg) := ml.Flush
  ({ ml with pending := [next] }, msg)

/-- `Buffer`: sets `LastTouched` to the current time, then either appends
(continuation) or starts a new line (flushing the previous group). -/
def Buffer (ml : MultiLine α) (now : Int) (next : Message α) :
    MultiLine α × Option (Message α) :=
  let ml := { ml with LastTouched := now }
  if ml.isContinuationMessage next then ml.addPending next
  else ml.StartNewLine next

/-- `isExpired(t, lastTouched, ttl)` -/
def isExpired (t lastTouched ttl : Int) : Bool := t - lastTouched > ttl

/-- `Expire(t, ttl)`: flush when expired, else nil; never mutates the
receiver. -/
def Expire (ml : MultiLine α) (t ttl : Int) :
    MultiLine α × Option (Message α) :=
  if isExpired t ml.LastTouched ttl then ml.Flush else (ml, none)

end MultiLine

/-! ## Buffer cache / adapter (`logstash.go`)

The adapter owns `cache map[string]*multiline.MultiLine`; the Go map is
embedded as an association list whose lookup finds the first entry with
the key and whose insert replaces that entry (or appends a new one).
The adapter's event loop (`Stream`/`readMessages`) services one event at
a time: a line arrival (`bufferMessage`) or an expiry tick
(`expireCache`); stream close triggers `flushPendingMessages`. -/

/-- Cache lookup (`a.cache[key]`). -/
def cacheLookup {β : Type} : List (String × β) → String → Option β
  | [], _ => none
  | (k', v) :: rest, k => if k' = k then some v else cacheLookup rest k

/-- Cache write (`a.cache[key] = v`): replaces the entry for `key`, or
appends one when absent. -/
def cacheInsert {β : Type} : List (String × β) → String → β → List (String × β)
  | [], k, v => [(k, v)]
  | (k', v') :: rest, k, v =>
    if k' = k then (k, v) :: rest else (k', v') :: cacheInsert rest k v

/-- `LogstashAdapter` (the fields the coalescing core uses). `mkBuffer`
is the engine template built once from the route options; the Go
`lookupBuffer` discards `mkBuffer`'s error (`ml, _ := a.mkBuffer()`), so
we carry the successfully-built `MultiLine` value. -/
structure LogstashAdapter (α : Type) where
  cache : List (String × MultiLine α)
  cacheTTL : Int
  mkBuffer : MultiLine α

/-- The cache key of a message: `msg.Container.ID + msg.Source`
(`lookupBuffer`, logstash.go). -/
def sourceKey {α : Type} (msg : Message α) : String :=
  msg.containerID ++ msg.source

namespace LogstashAdapter

variable {α : Type} [Inhabited α]

/-- `lookupBuffer(msg)`: lazily creates the buffer for the message's key
from `mkBuffer` on first sight, and returns the (possibly grown) cache
together with the buffer for the key. -/
def lookupBuffer (a : LogstashAdapter α) (msg : Message α) :
    LogstashAdapter α × MultiLine α :=
  match cacheLookup a.cache (sourceKey msg) with
  | some ml => (a, ml)
  | none =>
    ({ a with cache := cacheInsert a.cache (sourceKey msg) a.mkBuffer },
     a.mkBuffer)

/-- `bufferMessage(msg)`: routes the message to its buffer's `Buffer`
(which mutates the cached buffer through its pointer — embedded as
writing the updated buffer back) and returns the flushed record, if any,
as a batch of zero or one messages. -/
def bufferMessage (a : LogstashAdapter α) (now : Int) (msg : Message α) :
    LogstashAdapter α × List (Message α) :=
  let (a1, ml) := a.lookupBuffer msg
  let (ml', msgOrNil) := ml.Buffer now msg
  ({ a1 with cache := cacheInsert a1.cache (sourceKey msg) ml' },
   msgOrNil.toList)

/-- The entry-wise loop of `expireCache`: each buffer whose `Expire`
returns a record is deleted from the cache and its record collected;
the others remain. (Go's map iteration order is unspecified; records
across distinct keys carry no ordering contract.) -/
def expireEntries (t ttl : Int) :
    List (String × MultiLine α) →
    List (String × MultiLine α) × List (Message α)
  | [] => ([], [])
  | (k, ml) :: rest =>
    let (cache', msgs) := expireEntries t ttl rest
    match (ml.Expire t ttl).2 with
    | some msg => (cache', msg :: msgs)
    | none => ((k, ml) :: cache', msgs)

/-- `expireCache(t)` -/
def expireCache (a : LogstashAdapter α) (t : Int) :
    LogstashAdapter α × List (Message α) :=
  let (cache', msgs) := expireEntries t a.cacheTTL a.cache
  ({ a with cache := cache' }, msgs)

/-- `flushPendingMessages`: flushes every cached buffer (stream close);
`Flush` does not mutate the buffers and nil results are skipped. -/
def flushPendingMessages (a : LogstashAdapter α) : List (Message α) :=
  a.cache.foldr
    (fun kv msgs =>
      match kv.2.Flush.2 with
      | some msg => msg :: msgs
      | none => msgs) []

end LogstashAdapter

/-- One event of the merged event loop (`readMessages`): arrival of the
next line, or a firing of the expiry ticker. -/
inductive Event (α : Type) where
  | line (t : Int) (msg : Message α)
  | tick (t : Int)

/-- `readMessages` servicing one event (the `Continue` cases of the
`select`): a tick runs the expiry sweep, a line arrival is buffered. -/
def readMessages {α : Type} [Inhabited α] (a : LogstashAdapter α)
    (e : Event α) : LogstashAdapter α × List (Message α) :=
  match e with
  | Event.tick t => a.expireCache t
  | Event.line t msg => a.bufferMessage t msg

/-- The event loop (`Stream`) over a finite event sequence, collecting
the emitted records in emission order. -/
def runEvents {α : Type} [Inhabited α] (a : LogstashAdapter α) :
    List (Event α) → LogstashAdapter α × List (Message α)
  | [] => (a, [])
  | e :: rest =>
    let (a1, out) := readMessages a e
    let (a2, outs) := runEvents a1 rest
    (a2, out ++ outs)

/-! ## Pointer-level model of both engine variants

Messages live in an explicit heap (addresses are indices into a list of
message cells); `pending` holds addresses, as `pending []*router.Message`
holds pointers. Submitting a line allocates a fresh cell for it — the
producer retains that address, so in-place mutation of a submitted
message is observable as a change of its cell. -/

/-- The message heap. Allocation appends; the fresh address is the old
length. -/
abbrev Heap (α : Type) : Type := List (Message α)

/-- Dereference (`*p`). -/
def hGet {α : Type} [Inhabited α] (h : Heap α) (a : Nat) : Message α :=
  h.getD a default

/-- Heap allocation of a message cell, returning its address. -/
def hAlloc {α : Type} (h : Heap α) (m : Message α) : Heap α × Nat :=
  (h ++ [m], h.length)

/-- The configuration fields shared by both engine variants
(`isMultiline`, `maxLines`, `separator`). -/
structure MLCfg where
  isMultiline : matcher
  maxLines : Nat
  separator : String

/-- Pointer-level state of the mutating-method variant: `pending` holds
the addresses of the buffered messages. -/
structure PtrML where
  pending : List Nat
  LastTouched : Int

namespace PtrML

variable {α : Type} [Inhabited α]

/-- `getLastPendingData` over the heap. -/
def lastPendingData (h : Heap α) (ml : PtrML) : String :=
  (hGet h (ml.pending.getD (ml.pending.length - 1) 0)).data

/-- `isContinuationMessage` over the heap. -/
def isContinuation (cfg : MLCfg) (h : Heap α) (ml : PtrML) (a : Nat) : Bool :=
  ml.pending.length == 0 ||
    cfg.isMultiline (lastPendingData h ml) (hGet h a).data

/-- `addPending` over the heap: below the cap stores the message's
address; at the cap allocates a fresh `"[Truncated]"` copy
(`truncMessage := *next`) and stores its address; above the cap drops. -/
def addPending (cfg : MLCfg) (h : Heap α) (ml : PtrML) (a : Nat) :
    Heap α × PtrML × Option Nat :=
  if ml.pending.length < cfg.maxLines then
    (h, { ml with pending := ml.pending ++ [a] }, none)
  else if ml.pending.length == cfg.maxLines then
    let (h', a') := hAlloc h { hGet h a with data := "[Truncated]" }
    (h', { ml with pending := ml.pending ++ [a'] }, none)
  else (h, ml, none)

/-- Method-variant `Flush` over the heap: allocates a *new* record cell
(`msg = new(router.Message); *msg = *ml.pending[0]`) and sets its data to
the joined texts; existing cells are not written. -/
def Flush (cfg : MLCfg) (h : Heap α) (ml : PtrML) : Heap α × Option Nat :=
  if ml.pending.length > 0 then
    let (h', a') := hAlloc h
      { hGet h (ml.pending.getD 0 0) with
        data := String.intercalate cfg.separator
          (ml.pending.map (fun a => (hGet h a).data)) }
    (h', some a')
  else (h, none)

/-- `StartNewLine` over the heap. -/
def StartNewLine (cfg : MLCfg) (h : Heap α) (ml : PtrML) (a : Nat) :
    Heap α × PtrML × Option Nat :=
  let (h', msg) := Flush cfg h ml
  (h', { ml with pending := [a] }, msg)

/-- `Buffer` over the heap. -/
def Buffer (cfg : MLCfg) (h : Heap α) (ml : PtrML) (now : Int) (a : Nat) :
    Heap α × PtrML × Option Nat :=
  let ml := { ml with LastTouched := now }
  if isContinuation cfg h ml a then addPending cfg h ml a
  else StartNewLine cfg h ml a

/-- `Expire` over the heap. -/
def Expire (cfg : MLCfg) (h : Heap α) (ml : PtrML) (t ttl : Int) :
    Heap α × Option Nat :=
  if MultiLine.isExpired t ml.LastTouched ttl then Flush cfg h ml
  else (h, none)

/-- A producer submitting a line: the message is allocated as a fresh
cell whose address is handed to `Buffer`. -/
def Submit (cfg : MLCfg) (h : Heap α) (ml : PtrML) (now : Int)
    (m : Message α) : Heap α × PtrML × Option Nat :=
  let (h1, a) := hAlloc h m
  Buffer cfg h1 ml now a

end PtrML

/-- `MLState` of the functional-update variant. -/
inductive MLState where
  | Buffering
  | Flushed
  deriving Repr, DecidableEq

/-- Pointer-level state of the functional-update variant (`MultiLine`
with `Last *router.Message` and `State MLState`). -/
structure FnML where
  pending : List Nat
  Last : Option Nat
  State : MLState

namespace FnML

variable {α : Type} [Inhabited α]

/-- Functional-variant `addPending`: same cap rule; clears `Last`, state
`Buffering`. -/
def addPending (cfg : MLCfg) (h : Heap α) (ml : FnML) (a : Nat) :
    Heap α × FnML :=
  if ml.pending.length < cfg.maxLines then
    (h, { pending := ml.pending ++ [a], Last := none,
          State := MLState.Buffering })
  else if ml.pending.length == cfg.maxLines then
    let (h', a') := hAlloc h { hGet h a with data := "[Truncated]" }
    (h', { pending := ml.pending ++ [a'], Last := none,
           State := MLState.Buffering })
  else (h, { pending := ml.pending, Last := none,
             State := MLState.Buffering })

/-- Functional-variant `Flush`: collects the pending texts, then sets
`ml.Last = ml.pending[0]` and assigns the joined text through that
pointer (`ml.Last.Data = strings.Join(...)`) — an in-place write of the
first pending message's cell. Resets pending to the new message. (The Go
code indexes `ml.pending[0]` and so panics on an empty pending; `Step`
only calls it with pending non-empty.) -/
def Flush (cfg : MLCfg) (h : Heap α) (ml : FnML) (a : Nat) :
    Heap α × FnML :=
  let buffer := ml.pending.map (fun x => (hGet h x).data)
  let p0 := ml.pending.getD 0 0
  let h' := h.set p0
    { hGet h p0 with data := String.intercalate cfg.separator buffer }
  (h', { pending := [a], Last := some p0, State := MLState.Flushed })

/-- Functional-variant `Step`. -/
def Step (cfg : MLCfg) (h : Heap α) (ml : FnML) (a : Nat) : Heap α × FnML :=
  if ml.pending.length == 0 then addPending cfg h ml a
  else if cfg.isMultiline
      (hGet h (ml.pending.getD (ml.pending.length - 1) 0)).data
      (hGet h a).data then
    addPending cfg h ml a
  else Flush cfg h ml a

/-- A producer submitting a line to the functional variant. -/
def Submit (cfg : MLCfg) (h : Heap α) (ml : FnML) (m : Message α) :
    Heap α × FnML :=
  let (h1, a) := hAlloc h m
  Step cfg h1 ml a

end FnML

/-! ## Runs and observers -/

/-- A sequence of `Buffer` calls on one engine (timestamps paired with
messages), as driven by `bufferMessage` for a single key. -/
def MultiLine.BufferRun {α : Type} [Inhabited α] (ml : MultiLine α) :
    List (Int × Message α) → MultiLine α
  | [] => ml
  | (t, m) :: rest => MultiLine.BufferRun (ml.Buffer t m).1 rest

/-- The event loop restricted to line arrivals, with each emitted record
paired with the cache key of the event that produced it (the key of the
buffer that was flushed). -/
def runLines {α : Type} [Inhabited α] (a : LogstashAdapter α) :
    List (Int × Message α) → LogstashAdapter α × List (String × Message α)
  | [] => (a, [])
  | (t, msg) :: rest =>
    let (a1, out) := a.bufferMessage t msg
    let (a2, outs) := runLines a1 rest
    (a2, out.map (fun r => (sourceKey msg, r)) ++ outs)

/-- Observer: the groups of pending messages flushed while servicing one
event, each with the separator of its buffer. A line arrival flushes its
buffer's pending group exactly when the line is not a continuation; a
tick flushes the pending group of every buffer whose `Expire` yields a
record. -/
def flushGroups {α : Type} [Inhabited α] (a : LogstashAdapter α)
    (e : Event α) : List (String × List (Message α)) :=
  match e with
  | Event.line _ msg =>
    let ml := (a.lookupBuffer msg).2
    if ml.isContinuationMessage msg then []
    else [(ml.separator, ml.pending)]
  | Event.tick t =>
    (a.cache.filter (fun kv => ((kv.2.Expire t a.cacheTTL).2).isSome)).map
      (fun kv => (kv.2.separator, kv.2.pending))

/-- The coalesced record a flushed group gives rise to: a copy of its
first message whose data is the joined texts. -/
def joinGroup {α : Type} [Inhabited α]
    (sg : String × List (Message α)) : Message α :=
  { sg.2.getD 0 default with
    data := String.intercalate sg.1 (sg.2.map (fun m => m.data)) }

/-- All groups flushed along a run of the event loop, in emission
order. -/
def runGroups {α : Type} [Inhabited α] (a : LogstashAdapter α) :
    List (Event α) → List (String × List (Message α))
  | [] => []
  | e :: rest => flushGroups a e ++ runGroups (readMessages a e).1 rest

/-- The metadata tags of a buffer's pending messages. -/
def pendingTags {α : Type} (ml : MultiLine α) : List α :=
  ml.pending.map (fun m => m.meta)

/-- The metadata tags of all pending messages across a cache. -/
def cacheTags {α : Type} (c : List (String × MultiLine α)) : List α :=
  c.flatMap (fun kv => pendingTags kv.2)

/-- The metadata tags of all messages contained in flushed groups. -/
def groupTags {α : Type} (gs : List (String × List (Message α))) : List α :=
  gs.flatMap (fun sg => sg.2.map (fun m => m.meta))

/-- The metadata tags of the line events of an event sequence. -/
def eventTags {α : Type} : List (Event α) → List α
  | [] => []
  | Event.line _ msg :: rest => msg.meta :: eventTags rest
  | Event.tick _ :: rest => eventTags rest

/-! ## Concrete fixtures (used by witnesses and counterexamples) -/

/-- A concrete pattern: matches exactly the text `"cont"`. -/
def contPattern : String → Bool := fun s => s == "cont"

/-- Concrete messages (metadata tags are `Nat`). -/
def msgA : Message Nat :=
  { data := "a", containerID := "c1", source := "stdout", meta := 1 }

def msgCont : Message Nat :=
  { data := "cont", containerID := "c1", source := "stdout", meta := 2 }

def msgB : Message Nat :=
  { data := "b", containerID := "c1", source := "stdout", meta := 3 }

def msgC : Message Nat :=
  { data := "c", containerID := "c1", source := "stdout", meta := 4 }

def msgD : Message Nat :=
  { data := "d", containerID := "c1", source := "stdout", meta := 5 }

def msgOther : Message Nat :=
  { data := "o", containerID := "c2", source := "stdout", meta := 6 }

/-- An engine whose matcher treats every line as a continuation
(`max_lines = 2`). -/
def alwaysContML : MultiLine Nat :=
  { isMultiline := previousMatcher (fun _ => true), maxLines := 2,
    separator := "\n", pending := [], LastTouched := 0 }

/-- An engine recognising only `"cont"` as a continuation, with one
pending line `msgA`. -/
def fixML : MultiLine Nat :=
  { isMultiline := previousMatcher contPattern, maxLines := 2,
    separator := "\n", pending := [msgA], LastTouched := 0 }

/-- `max_lines = 1` configuration whose pattern matches everything. -/
def cfg3 : MultilineConfig :=
  { Pattern := fun _ => true, GroupWith := "previous", Negate := false,
    Separator := none, MaxLines := 1 }

/-- The engine `NewMultiLine` builds from `cfg3`. -/
def ml3 : MultiLine Nat :=
  match NewMultiLine Nat cfg3 with
  | Except.ok ml => ml
  | Except.error _ => alwaysContML

/-- A configuration with an unrecognised `GroupWith`. -/
def cfgBogus : MultilineConfig :=
  { Pattern := contPattern, GroupWith := "bogus", Negate := false,
    Separator := none, MaxLines := 0 }

/-- A buffer holding the single pending line `msgA`. -/
def fixSingle : MultiLine Nat :=
  { isMultiline := previousMatcher contPattern, maxLines := 2,
    separator := "\n", pending := [msgA], LastTouched := 0 }

/-- An adapter caching only `fixSingle` under key `"k"`, with TTL 2. -/
def aFix : LogstashAdapter Nat :=
  { cache := [("k", fixSingle)], cacheTTL := 2, mkBuffer := alwaysContML }

/-- An adapter with an empty cache and a fresh `mkBuffer` template. -/
def aEmpty : LogstashAdapter Nat :=
  { cache := [], cacheTTL := 2,
    mkBuffer := { isMultiline := previousMatcher contPattern,
                  maxLines := 2, separator := "\n", pending := [],
                  LastTouched := 0 } }

/-- Heap-model configuration for the pointer-level fixtures. -/
def cfgF : MLCfg :=
  { isMultiline := previousMatcher contPattern, maxLines := 1024,
    separator := "\n" }

/-- Initial functional-variant state (zero value). -/
def fnml0 : FnML :=
  { pending := [], Last := none, State := MLState.Buffering }

/-- Initial method-variant pointer state (zero value). -/
def ptrml0 : PtrML := { pending := [], LastTouched := 0 }

/-- Functional-variant run: submit `"a"`. -/
def fnStep1 : Heap Nat × FnML := FnML.Submit cfgF [] fnml0 msgA

/-- Then submit the continuation `"cont"`. -/
def fnStep2 : Heap Nat × FnML := FnML.Submit cfgF fnStep1.1 fnStep1.2 msgCont

/-- Then submit the non-continuation `"b"`, which triggers the
functional-variant `Flush`. -/
def fnStep3 : Heap Nat × FnML := FnML.Submit cfgF fnStep2.1 fnStep2.2 msgB

/-! ## Helper lemmas -/

theorem buffer_eq {α : Type} [Inhabited α] (ml : MultiLine α) (now : Int)
    (next : Message α) :
    ml.Buffer now next =
      if ml.isContinuationMessage next then
        MultiLine.addPending { ml with LastTouched := now } next
      else MultiLine.StartNewLine { ml with LastTouched := now } next := rfl

theorem flush_fst {α : Type} [Inhabited α] (ml : MultiLine α) :
    (ml.Flush).1 = ml := by
  unfold MultiLine.Flush
  split <;> rfl

theorem intercalate_single (s a : String) :
    String.intercalate s [a] = a := rfl

theorem intercalate_three (s a b c : String) :
    String.intercalate s [a, b, c] = a ++ s ++ b ++ s ++ c := rfl

theorem flush_of_ne_nil {α : Type} [Inhabited α] (ml : MultiLine α)
    (h : ml.pending ≠ []) :
    ml.Flush = (ml, some { ml.pending.getD 0 default with
      data := String.intercalate ml.separator
        (ml.pending.map (fun m => m.data)) }) := by
  have hpos : 0 < ml.pending.length := List.length_pos.mpr h
  simp [MultiLine.Flush, MultiLine.PendingSize, hpos]

theorem flush_of_nil {α : Type} [Inhabited α] (ml : MultiLine α)
    (h : ml.pending = []) : ml.Flush = (ml, none) := by
  simp [MultiLine.Flush, MultiLine.PendingSize, h]

theorem not_continuation_pos {α : Type} [Inhabited α] (ml : MultiLine α)
    (m : Message α) (h : ml.isContinuationMessage m = false) :
    0 < ml.pending.length := by
  by_contra hle
  have h0 : ml.pending.length = 0 := by omega
  simp [MultiLine.isContinuationMessage, MultiLine.PendingSize, h0] at h

theorem buffer_cont {α : Type} [Inhabited α] (ml : MultiLine α) (now : Int)
    (next : Message α) (h : ml.isContinuationMessage next = true) :
    ml.Buffer now next =
      ({ ml with
          LastTouched := now
          pending :=
            if ml.pending.length < ml.maxLines then ml.pending ++ [next]
            else if ml.pending.length = ml.maxLines then
              ml.pending ++ [{ next with data := "[Truncated]" }]
            else ml.pending }, none) := by
  rw [buffer_eq, if_pos h]
  by_cases h1 : ml.pending.length < ml.maxLines
  · simp [MultiLine.addPending, MultiLine.PendingSize, h1]
  · by_cases h2 : ml.pending.length = ml.maxLines
    · simp [MultiLine.addPending, MultiLine.PendingSize, h1, h2]
    · simp [MultiLine.addPending, MultiLine.PendingSize, h1, h2]

theorem buffer_newline {α : Type} [Inhabited α] (ml : MultiLine α)
    (now : Int) (next : Message α)
    (h : ml.isContinuationMessage next = false) :
    ml.Buffer now next =
      ({ ml with
          LastTouched := now
          pending := [next] },
       some { ml.pending.getD 0 default with
              data := String.intercalate ml.separator
                (ml.pending.map (fun m => m.data)) }) := by
  have hpos := not_continuation_pos ml next h
  rw [buffer_eq, if_neg (by simp [h])]
  have hne : ({ ml with LastTouched := now } : MultiLine α).pending ≠ [] :=
    List.ne_nil_of_length_pos hpos
  simp [MultiLine.StartNewLine, flush_of_ne_nil _ hne]

theorem expireEntries_keep {α : Type} [Inhabited α] (t ttl : Int)
    (c : List (String × MultiLine α)) :
    (LogstashAdapter.expireEntries t ttl c).1 =
      c.filter (fun kv => ((kv.2.Expire t ttl).2).isNone) := by
  induction c with
  | nil => rfl
  | cons kv rest ih =>
    cases h : (kv.2.Expire t ttl).2 <;>
      simp [LogstashAdapter.expireEntries, h, ih]

theorem expireEntries_msgs {α : Type} [Inhabited α] (t ttl : Int)
    (c : List (String × MultiLine α)) :
    (LogstashAdapter.expireEntries t ttl c).2 =
      c.filterMap (fun kv => (kv.2.Expire t ttl).2) := by
  induction c with
  | nil => rfl
  | cons kv rest ih =>
    cases h : (kv.2.Expire t ttl).2 <;>
      simp [LogstashAdapter.expireEntries, h, ih]

theorem drain_empty {α : Type} [Inhabited α]
    (c : List (String × MultiLine α))
    (h : ∀ kv ∈ c, (kv.2 : MultiLine α).pending = []) :
    c.foldr
      (fun kv msgs =>
        match kv.2.Flush.2 with
        | some msg => msg :: msgs
        | none => msgs) [] = [] := by
  induction c with
  | nil => rfl
  | cons kv rest ih =>
    have h1 : kv.2.Flush.2 = none := by
      rw [flush_of_nil kv.2 (h kv (by simp))]
    simp only [List.foldr]
    rw [h1]
    exact ih (fun kv' hkv' => h kv' (by simp [hkv']))

/-! ## Claims -/

/-- C1: for every line submitted via `Buffer`: if the buffer is empty or
the matcher accepts (last pending text, line text), the line is appended
subject to the cap rule, `LastTouched` is updated and no record is
produced; otherwise the pending lines are flushed into exactly one record
whose text is the pending texts joined by the separator in arrival order,
inheriting all identity/metadata of `pending[0]`, and pending is reset to
the single new line. -/
theorem claim_C1_buffer {α : Type} [Inhabited α] (ml : MultiLine α)
    (now : Int) (next : Message α) :
    (ml.isContinuationMessage next = true →
      ml.Buffer now next =
        ({ ml with
            LastTouched := now
            pending :=
              if ml.pending.length < ml.maxLines then ml.pending ++ [next]
              else if ml.pending.length = ml.maxLines then
                ml.pending ++ [{ next with data := "[Truncated]" }]
              else ml.pending }, none)) ∧
    (ml.isContinuationMessage next = false →
      ml.Buffer now next =
        ({ ml with
            LastTouched := now
            pending := [next] },
         some { ml.pending.getD 0 default with
                data := String.intercalate ml.separator
                  (ml.pending.map (fun m => m.data)) })) :=
  ⟨buffer_cont ml now next, buffer_newline ml now next⟩

/-- Witness for C1: a continuation line is appended with no record; a
non-continuation line flushes the single pending line `msgA` into a
record equal to `msgA` (singleton join) and resets pending. -/
theorem claim_C1_buffer_witness :
    fixML.Buffer 7 msgCont =
      ({ fixML with
          LastTouched := 7
          pending := [msgA, msgCont] }, none) ∧
    fixML.Buffer 7 msgB =
      ({ fixML with
          LastTouched := 7
          pending := [msgB] }, some msgA) :=
  ⟨(claim_C1_buffer fixML 7 msgCont).1 (by decide),
   (claim_C1_buffer fixML 7 msgB).2 (by decide)⟩

/-- C8: a flush of zero pending lines yields no record at all and leaves
the buffer unchanged, and draining a cache of empty buffers
(`flushPendingMessages`) yields no records. -/
theorem claim_C8_empty_flush {α : Type} [Inhabited α] (ml : MultiLine α)
    (a : LogstashAdapter α) :
    (ml.pending = [] → ml.Flush = (ml, none)) ∧
    ((∀ kv ∈ a.cache, (kv.2 : MultiLine α).pending = []) →
      a.flushPendingMessages = []) := by
  constructor
  · exact flush_of_nil ml
  · exact fun h => drain_empty a.cache h

/-- Witness for C8: flushing the freshly-built empty engine and draining
an adapter whose cache is empty both produce nothing. -/
theorem claim_C8_empty_flush_witness :
    alwaysContML.Flush = (alwaysContML, none) ∧
    aEmpty.flushPendingMessages = [] :=
  ⟨(claim_C8_empty_flush alwaysContML aEmpty).1 rfl,
   (claim_C8_empty_flush alwaysContML aEmpty).2 (by simp [aEmpty])⟩

/-- C10: `Expire` does not consume the buffer it flushes — on an expired
buffer with pending lines it returns the `Flush` record while leaving the
state (pending, LastTouched) unchanged, a later `Expire` or a `Flush` on
the same buffer returns the same record again, and it is `expireCache`'s
loop that deletes exactly the record-yielding buffers from the cache. -/
theorem claim_C10_expire_frame {α : Type} [Inhabited α] (ml : MultiLine α)
    (t t' ttl : Int) (hexp : t - ml.LastTouched > ttl)
    (hne : ml.pending ≠ []) :
    (ml.Expire t ttl).1 = ml ∧
    (ml.Expire t ttl).2 = ml.Flush.2 ∧
    (ml.Expire t ttl).2.isSome = true ∧
    (t' - ml.LastTouched > ttl →
      (ml.Expire t' ttl).2 = (ml.Expire t ttl).2) ∧
    (∀ c : List (String × MultiLine α),
      (LogstashAdapter.expireEntries t ttl c).1 =
        c.filter (fun kv => ((kv.2.Expire t ttl).2).isNone)) := by
  have hexpb : MultiLine.isExpired t ml.LastTouched ttl = true := by
    simp [MultiLine.isExpired, hexp]
  have hfl := flush_of_ne_nil ml hne
  refine ⟨?_, ?_, ?_, ?_, ?_⟩
  · simp [MultiLine.Expire, hexpb, hfl]
  · simp [MultiLine.Expire, hexpb]
  · simp [MultiLine.Expire, hexpb, hfl]
  · intro h'
    have h'b : MultiLine.isExpired t' ml.LastTouched ttl = true := by
      simp [MultiLine.isExpired, h']
    simp [MultiLine.Expire, hexpb, h'b]
  · exact expireEntries_keep t ttl

/-- Witness for C10: the single-line buffer `fixSingle`, expired at t=6
with ttl=2, is returned unchanged together with the record `msgA`. -/
theorem claim_C10_expire_frame_witness :
    (fixSingle.Expire 6 2).1 = fixSingle ∧
    (fixSingle.Expire 6 2).2 = some msgA := by
  have h := claim_C10_expire_frame fixSingle 6 9 2 (by decide) (by decide)
  exact ⟨h.1, h.2.1.trans (by decide)⟩

theorem newMultiLine_pending_nil {α : Type} (config : MultilineConfig)
    (ml : MultiLine α) (h : NewMultiLine α config = Except.ok ml) :
    ml.pending = [] := by
  unfold NewMultiLine at h
  simp only [bind, Except.bind] at h
  split at h
  · cases h; rfl
  · cases h; rfl
  · cases h

theorem newMultiLine_err (α : Type) (config : MultilineConfig)
    (h1 : config.GroupWith ≠ "previous") (h2 : config.GroupWith ≠ "next") :
    NewMultiLine α config =
      Except.error ("unknown matcher type: " ++ config.GroupWith) := by
  unfold NewMultiLine
  simp only [bind, Except.bind]

theorem newMultiLine_matcher {α : Type} (config : MultilineConfig)
    (ml : MultiLine α) (h : NewMultiLine α config = Except.ok ml)
    (lastText currentText : String) :
    ml.isMultiline lastText currentText =
      (if config.Negate then
        !(if config.GroupWith = "previous" then config.Pattern currentText
          else config.Pattern lastText)
       else
        (if config.GroupWith = "previous" then config.Pattern currentText
         else config.Pattern lastText)) := by
  unfold NewMultiLine at h
  simp only [bind, Except.bind] at h
  split at h
  next heq =>
    cases h
    by_cases hn : config.Negate <;>
      simp [heq, hn, nextMatcher, negatedMatcher, genPatternMatcher]
  next heq =>
    cases h
    by_cases hn : config.Negate <;>
      simp [heq, hn, previousMatcher, negatedMatcher, genPatternMatcher]
  next => cases h

/-- C2: with `max_lines = 2` and three consecutive continuation lines,
the buffered group is line1, line2, `"[Truncated]"`; the subsequent flush
record's text is `line1 + sep + line2 + sep + "[Truncated]"`; no record
(and no error — the step is total and silently returns nothing) is
produced while buffering, and any continuation line arriving once the
marker is in place is silently dropped, leaving pending unchanged, until
the buffer is flushed. -/
theorem claim_C2_truncation {α : Type} [Inhabited α] (ml : MultiLine α)
    (t1 t2 t3 : Int) (m1 m2 m3 : Message α)
    (hmax : ml.maxLines = 2) (hpend : ml.pending = [])
    (h2 : ml.isMultiline m1.data m2.data = true)
    (h3 : ml.isMultiline m2.data m3.data = true) :
    (((ml.Buffer t1 m1).1.Buffer t2 m2).1.Buffer t3 m3).1.pending =
      [m1, m2, { m3 with data := "[Truncated]" }] ∧
    (((ml.Buffer t1 m1).1.Buffer t2 m2).1.Buffer t3 m3).1.Flush.2 =
      some { m1 with
             data := m1.data ++ ml.separator ++ m2.data ++ ml.separator ++
               "[Truncated]" } ∧
    (((ml.Buffer t1 m1).1.Buffer t2 m2).1.Buffer t3 m3).2 = none ∧
    (∀ (s : MultiLine α) (t : Int) (m : Message α),
      s.maxLines < s.pending.length → s.isContinuationMessage m = true →
      s.Buffer t m = ({ s with LastTouched := t }, none)) := by
  have c1 : ml.isContinuationMessage m1 = true := by
    simp [MultiLine.isContinuationMessage, MultiLine.PendingSize, hpend]
  have e1 : ml.Buffer t1 m1 =
      ({ ml with LastTouched := t1, pending := [m1] }, none) := by
    rw [buffer_cont ml t1 m1 c1]
    simp [hpend, hmax]
  have c2 : ({ ml with LastTouched := t1, pending := [m1] } :
      MultiLine α).isContinuationMessage m2 = true := by
    simp [MultiLine.isContinuationMessage, MultiLine.PendingSize,
      MultiLine.getLastPendingData, h2]
  have e2 : ({ ml with LastTouched := t1, pending := [m1] } :
        MultiLine α).Buffer t2 m2 =
      ({ ml with LastTouched := t2, pending := [m1, m2] }, none) := by
    rw [buffer_cont _ t2 m2 c2]
    simp [hmax]
  have c3 : ({ ml with LastTouched := t2, pending := [m1, m2] } :
      MultiLine α).isContinuationMessage m3 = true := by
    simp [MultiLine.isContinuationMessage, MultiLine.PendingSize,
      MultiLine.getLastPendingData, h3]
  have e3 : ({ ml with LastTouched := t2, pending := [m1, m2] } :
        MultiLine α).Buffer t3 m3 =
      ({ ml with
          LastTouched := t3
          pending := [m1, m2, { m3 with data := "[Truncated]" }] },
       none) := by
    rw [buffer_cont _ t3 m3 c3]
    simp [hmax]
  refine ⟨?_, ?_, ?_, ?_⟩
  · simp [e1, e2, e3]
  · rw [show (((ml.Buffer t1 m1).1.Buffer t2 m2).1.Buffer t3 m3).1 =
        ({ ml with
            LastTouched := t3
            pending := [m1, m2, { m3 with data := "[Truncated]" }] } :
          MultiLine α) by simp [e1, e2, e3]]
    rw [flush_of_ne_nil _ (by simp)]
    simp [intercalate_three]
  · simp [e1, e2, e3]
  · intro s t m hgt hc
    rw [buffer_cont s t m hc]
    have hn1 : ¬(s.pending.length < s.maxLines) := by omega
    have hn2 : ¬(s.pending.length = s.maxLines) := by omega
    simp [hn1, hn2]

/-- Witness for C2: three always-continuing lines a, b, c with
`max_lines = 2` coalesce to `"a\nb\n[Truncated]"`. -/
theorem claim_C2_truncation_witness :
    (((alwaysContML.Buffer 0 msgA).1.Buffer 1 msgB).1.Buffer 2
        msgC).1.pending =
      [msgA, msgB, { msgC with data := "[Truncated]" }] ∧
    (((alwaysContML.Buffer 0 msgA).1.Buffer 1 msgB).1.Buffer 2
        msgC).1.Flush.2 =
      some { msgA with data := "a\nb\n[Truncated]" } ∧
    (((alwaysContML.Buffer 0 msgA).1.Buffer 1 msgB).1.Buffer 2
        msgC).2 = none := by
  have h := claim_C2_truncation alwaysContML 0 1 2 msgA msgB msgC rfl rfl
    (by decide) (by decide)
  exact ⟨h.1, h.2.1.trans (by decide), h.2.2.1⟩

theorem buffer_cap {α : Type} [Inhabited α] (ml : MultiLine α) (t : Int)
    (m : Message α) (h : ml.pending.length ≤ ml.maxLines + 1) :
    (ml.Buffer t m).1.pending.length ≤ (ml.Buffer t m).1.maxLines + 1 := by
  cases hc : ml.isContinuationMessage m with
  | false =>
    rw [buffer_newline ml t m hc]
    simp
  | true =>
    rw [buffer_cont ml t m hc]
    by_cases h1 : ml.pending.length < ml.maxLines
    · simp only [h1, if_true]
      simp
      omega
    · by_cases h2 : ml.pending.length = ml.maxLines
      · simp [h1, h2]
      · simp [h1, h2]
        omega

/-- C3 counterexample: with `max_lines = 1`, admitting two continuation
lines to the `NewMultiLine`-built engine reaches a state with 2 pending
lines, so `len(pendingLines) ≤ maxLines` fails — the `"[Truncated]"`
marker occupies an extra slot beyond the cap. -/
theorem claim_C3_cap_cex :
    ((ml3.Buffer 0 msgA).1.Buffer 1 msgB).1.maxLines = 1 ∧
    ((ml3.Buffer 0 msgA).1.Buffer 1 msgB).1.pending.length = 2 ∧
    ¬(((ml3.Buffer 0 msgA).1.Buffer 1 msgB).1.pending.length ≤
      ((ml3.Buffer 0 msgA).1.Buffer 1 msgB).1.maxLines) := by decide

/-- C3 (amended): for every engine built by `NewMultiLine` and every
sequence of admitted lines, `pending.length ≤ maxLines + 1` holds — the
configured cap can be exceeded only by the single `"[Truncated]"` marker
line, after which further continuation lines are dropped. -/
theorem claim_C3_cap (α : Type) [Inhabited α] (config : MultilineConfig)
    (ml : MultiLine α) (h : NewMultiLine α config = Except.ok ml)
    (events : List (Int × Message α)) :
    (ml.BufferRun events).pending.length ≤
      (ml.BufferRun events).maxLines + 1 := by
  have h0 : ml.pending.length ≤ ml.maxLines + 1 := by
    rw [newMultiLine_pending_nil config ml h]
    simp
  clear h
  induction events generalizing ml with
  | nil => simpa [MultiLine.BufferRun] using h0
  | cons tm rest ih =>
    obtain ⟨t, m⟩ := tm
    simp only [MultiLine.BufferRun]
    exact ih _ (buffer_cap ml t m h0)

/-- Witness for C3 (amended): a three-line run on the `max_lines = 1`
engine respects the `maxLines + 1` bound. -/
theorem claim_C3_cap_witness :
    (ml3.BufferRun [(0, msgA), (1, msgB), (2, msgC)]).pending.length ≤
      (ml3.BufferRun [(0, msgA), (1, msgB), (2, msgC)]).maxLines + 1 :=
  claim_C3_cap Nat cfg3 ml3 rfl [(0, msgA), (1, msgB), (2, msgC)]

/-- C4: the `previous` matcher tests the pattern against the current text
only, the `next` matcher against the last text only, negation inverts the
underlying test (the engine built by `NewMultiLine` implements exactly
this composite), and construction with any `GroupWith` other than
`"previous"`/`"next"` fails with an error and no engine is created. -/
theorem claim_C4_matcher (α : Type) (regex : String → Bool) (m : matcher)
    (config : MultilineConfig) (lastText currentText : String) :
    previousMatcher regex lastText currentText = regex currentText ∧
    nextMatcher regex lastText currentText = regex lastText ∧
    negatedMatcher m lastText currentText = !(m lastText currentText) ∧
    (∀ ml : MultiLine α, NewMultiLine α config = Except.ok ml →
      ml.isMultiline lastText currentText =
        (if config.Negate then
          !(if config.GroupWith = "previous" then config.Pattern currentText
            else config.Pattern lastText)
         else
          (if config.GroupWith = "previous" then config.Pattern currentText
           else config.Pattern lastText))) ∧
    (config.GroupWith ≠ "previous" → config.GroupWith ≠ "next" →
      NewMultiLine α config =
        Except.error ("unknown matcher type: " ++ config.GroupWith)) :=
  ⟨rfl, rfl, rfl,
   fun ml h => newMultiLine_matcher config ml h lastText currentText,
   fun h1 h2 => newMultiLine_err α config h1 h2⟩

/-- Witness for C4: concrete matcher evaluations, a `NewMultiLine`-built
engine's matcher, and the construction failure on `GroupWith = "bogus"`. -/
theorem claim_C4_matcher_witness :
    previousMatcher contPattern "x" "cont" = contPattern "cont" ∧
    nextMatcher contPattern "x" "cont" = contPattern "x" ∧
    negatedMatcher (previousMatcher contPattern) "x" "cont" =
      !(previousMatcher contPattern "x" "cont") ∧
    ml3.isMultiline "x" "cont" = true ∧
    NewMultiLine Nat cfgBogus =
      Except.error ("unknown matcher type: " ++ "bogus") := by
  have h := claim_C4_matcher Nat contPattern (previousMatcher contPattern)
    cfgBogus "x" "cont"
  have h' := claim_C4_matcher Nat contPattern (previousMatcher contPattern)
    cfg3 "x" "cont"
  exact ⟨h.1, h.2.1, h.2.2.1,
    (h'.2.2.2.1 ml3 rfl).trans (by decide),
    h.2.2.2.2 (by decide) (by decide)⟩

/-- C5: `Expire(t, ttl)` yields a record exactly when `t - lastTouched >
ttl` and the buffer has pending lines, and never mutates the buffer; the
sweep keeps every non-record-yielding (in particular non-expired) buffer
unchanged in the cache; and for a buffer holding a single line with no
further activity beyond the TTL, the sweep emits that line's record and
removes the buffer from the cache. -/
theorem claim_C5_expiry {α : Type} [Inhabited α] (ml : MultiLine α)
    (t ttl : Int) (a : LogstashAdapter α) (k : String) (m : Message α) :
    ((ml.Expire t ttl).2.isSome = true ↔
      (t - ml.LastTouched > ttl ∧ ml.pending ≠ [])) ∧
    (ml.Expire t ttl).1 = ml ∧
    (∀ c : List (String × MultiLine α),
      (LogstashAdapter.expireEntries t ttl c).1 =
        c.filter (fun kv => ((kv.2.Expire t ttl).2).isNone)) ∧
    (a.cache = [(k, ml)] → ml.pending = [m] →
      t - ml.LastTouched > a.cacheTTL →
      a.expireCache t = ({ a with cache := [] }, [m])) := by
  refine ⟨?_, ?_, ?_, ?_⟩
  · by_cases he : t - ml.LastTouched > ttl
    · by_cases hp : ml.pending = []
      · simp [MultiLine.Expire, MultiLine.isExpired, he, hp,
          flush_of_nil ml hp]
      · simp [MultiLine.Expire, MultiLine.isExpired, he, hp,
          flush_of_ne_nil ml hp]
    · simp [MultiLine.Expire, MultiLine.isExpired, he]
  · by_cases he : t - ml.LastTouched > ttl
    · simp [MultiLine.Expire, MultiLine.isExpired, he, flush_fst]
    · simp [MultiLine.Expire, MultiLine.isExpired, he]
  · exact expireEntries_keep t ttl
  · intro hc hp hexp
    have hb : MultiLine.isExpired t ml.LastTouched a.cacheTTL = true := by
      simp [MultiLine.isExpired, hexp]
    have hflush : ml.Flush = (ml, some m) := by
      rw [flush_of_ne_nil ml (by rw [hp]; simp)]
      simp [hp, intercalate_single]
    have hexpire : ml.Expire t a.cacheTTL = (ml, some m) := by
      simp [MultiLine.Expire, hb, hflush]
    simp [LogstashAdapter.expireCache, hc, LogstashAdapter.expireEntries,
      hexpire]

/-- Witness for C5: the adapter caching only the single-line buffer
`fixSingle` (last touched at 0), swept at t=6 with TTL 2, emits `msgA`
and drops the buffer from the cache. -/
theorem claim_C5_expiry_witness :
    aFix.expireCache 6 = ({ aFix with cache := [] }, [msgA]) :=
  (claim_C5_expiry fixSingle 6 2 aFix "k" msgA).2.2.2 rfl rfl (by decide)

theorem ptr_flush_heap {α : Type} [Inhabited α] (cfg : MLCfg) (h : Heap α)
    (ml : PtrML) : ∃ ext, (PtrML.Flush cfg h ml).1 = h ++ ext := by
  unfold PtrML.Flush hAlloc
  split
  · exact ⟨_, rfl⟩
  · exact ⟨[], (List.append_nil h).symm⟩

theorem ptr_startNewLine_heap {α : Type} [Inhabited α] (cfg : MLCfg)
    (h : Heap α) (ml : PtrML) (a : Nat) :
    ∃ ext, (PtrML.StartNewLine cfg h ml a).1 = h ++ ext := by
  obtain ⟨ext, he⟩ := ptr_flush_heap cfg h ml
  rcases hf : PtrML.Flush cfg h ml with ⟨h', msg⟩
  rw [hf] at he
  exact ⟨ext, by simp [PtrML.StartNewLine, hf, he]⟩

theorem ptr_addPending_heap {α : Type} [Inhabited α] (cfg : MLCfg)
    (h : Heap α) (ml : PtrML) (a : Nat) :
    ∃ ext, (PtrML.addPending cfg h ml a).1 = h ++ ext := by
  unfold PtrML.addPending hAlloc
  split
  · exact ⟨[], (List.append_nil h).symm⟩
  · split
    · exact ⟨_, rfl⟩
    · exact ⟨[], (List.append_nil h).symm⟩

theorem ptr_buffer_heap {α : Type} [Inhabited α] (cfg : MLCfg) (h : Heap α)
    (ml : PtrML) (now : Int) (a : Nat) :
    ∃ ext, (PtrML.Buffer cfg h ml now a).1 = h ++ ext := by
  simp only [PtrML.Buffer]
  split
  · exact ptr_addPending_heap cfg h _ a
  · exact ptr_startNewLine_heap cfg h _ a

theorem ptr_submit_heap {α : Type} [Inhabited α] (cfg : MLCfg) (h : Heap α)
    (ml : PtrML) (now : Int) (m : Message α) :
    ∃ ext, (PtrML.Submit cfg h ml now m).1 = (h ++ [m]) ++ ext := by
  unfold PtrML.Submit hAlloc
  exact ptr_buffer_heap cfg (h ++ [m]) _ now h.length

theorem hGet_append_lt {α : Type} [Inhabited α] (l ext : List (Message α))
    (i : Nat) (hi : i < l.length) : hGet (l ++ ext) i = hGet l i := by
  simp [hGet, List.getD, List.getElem?_append_left hi]

/-- C9 (amended): the mutating-method variant (`Buffer`/`Flush`/`Expire`,
the operations the adapter drives) never modifies any message the
producer handed in — every heap cell existing before the operation is
unchanged afterwards, and the submitted message's own cell still holds
it; the functional-update variant's `Flush`, by contrast, overwrites the
first pending message in place (see the counterexample). -/
theorem claim_C9_frame {α : Type} [Inhabited α] (cfg : MLCfg) (h : Heap α)
    (ml : PtrML) (now t ttl : Int) (m : Message α) (i : Nat)
    (hi : i < h.length) :
    hGet (PtrML.Submit cfg h ml now m).1 i = hGet h i ∧
    hGet (PtrML.Submit cfg h ml now m).1 h.length = m ∧
    hGet (PtrML.Flush cfg h ml).1 i = hGet h i ∧
    hGet (PtrML.Expire cfg h ml t ttl).1 i = hGet h i := by
  obtain ⟨ext, he⟩ := ptr_submit_heap cfg h ml now m
  obtain ⟨ext2, he2⟩ := ptr_flush_heap cfg h ml
  refine ⟨?_, ?_, ?_, ?_⟩
  · rw [he, List.append_assoc]
    exact hGet_append_lt h ([m] ++ ext) i hi
  · rw [he]
    rw [hGet_append_lt (h ++ [m]) ext h.length (by simp)]
    simp [hGet, List.getD]
  · rw [he2]
    exact hGet_append_lt h ext2 i hi
  · unfold PtrML.Expire
    split
    · rw [he2]
      exact hGet_append_lt h ext2 i hi
    · rfl

/-- Witness for C9 (amended): submitting `msgB` to a method-variant
buffer over the one-cell heap `[msgA]` leaves cell 0 intact and stores
`msgB` at the fresh cell 1. -/
theorem claim_C9_frame_witness :
    hGet (PtrML.Submit cfgF [msgA] ptrml0 5 msgB).1 0 = hGet [msgA] 0 ∧
    hGet (PtrML.Submit cfgF [msgA] ptrml0 5 msgB).1 1 = msgB := by
  have h := claim_C9_frame cfgF [msgA] ptrml0 5 6 2 msgB 0 (by decide)
  exact ⟨h.1, h.2.1⟩

/-- C9 counterexample: in the functional-update variant, after lines
"a" and "cont" are buffered, the non-continuation "b" makes `Flush`
assign the joined text through `ml.Last = ml.pending[0]` — the producer's
first message cell is overwritten in place with "a\ncont". -/
theorem claim_C9_frame_cex :
    hGet fnStep2.1 0 = msgA ∧
    hGet fnStep3.1 0 ≠ msgA ∧
    (hGet fnStep3.1 0).data = "a" ++ "\n" ++ "cont" := by decide

theorem cacheLookup_insert {β : Type} (c : List (String × β)) (k : String)
    (v : β) : cacheLookup (cacheInsert c k v) k = some v := by
  induction c with
  | nil => simp [cacheInsert, cacheLookup]
  | cons kv rest ih =>
    obtain ⟨k0, v0⟩ := kv
    by_cases h0 : k0 = k
    · simp [cacheInsert, cacheLookup, h0]
    · simp [cacheInsert, cacheLookup, h0, ih]

theorem cacheLookup_insert_ne {β : Type} (c : List (String × β))
    (k k' : String) (v : β) (hne : k' ≠ k) :
    cacheLookup (cacheInsert c k' v) k = cacheLookup c k := by
  have hne' : k ≠ k' := Ne.symm hne
  induction c with
  | nil => simp [cacheInsert, cacheLookup, hne]
  | cons kv rest ih =>
    obtain ⟨k0, v0⟩ := kv
    by_cases h0 : k0 = k'
    · subst h0
      simp [cacheInsert, cacheLookup, hne]
    · by_cases h1 : k0 = k
      · subst h1
        simp [cacheInsert, cacheLookup, h0, hne']
      · simp [cacheInsert, cacheLookup, h0, h1, ih]

theorem keyed_filter_self {α : Type} (out : List (Message α)) (k : String) :
    ((out.map (fun r => (k, r))).filter
      (fun kr => kr.1 == k)).map Prod.snd = out := by
  induction out with
  | nil => rfl
  | cons r rest ih => simp [List.filter_cons, ih]

theorem keyed_filter_ne {α : Type} (out : List (Message α)) (k0 k : String)
    (h : k0 ≠ k) :
    (out.map (fun r => (k0, r))).filter (fun kr => kr.1 == k) = [] := by
  induction out with
  | nil => rfl
  | cons r rest ih => simp [List.filter_cons, h, ih]

theorem bufferMessage_found {α : Type} [Inhabited α] (a : LogstashAdapter α)
    (t : Int) (msg : Message α) (ml : MultiLine α)
    (h : cacheLookup a.cache (sourceKey msg) = some ml) :
    a.bufferMessage t msg =
      ({ a with
          cache := cacheInsert a.cache (sourceKey msg) (ml.Buffer t msg).1 },
       (ml.Buffer t msg).2.toList) := by
  unfold LogstashAdapter.bufferMessage LogstashAdapter.lookupBuffer
  rw [h]

theorem bufferMessage_new {α : Type} [Inhabited α] (a : LogstashAdapter α)
    (t : Int) (msg : Message α)
    (h : cacheLookup a.cache (sourceKey msg) = none) :
    a.bufferMessage t msg =
      ({ a with
          cache := cacheInsert
            (cacheInsert a.cache (sourceKey msg) a.mkBuffer)
            (sourceKey msg) (a.mkBuffer.Buffer t msg).1 },
       (a.mkBuffer.Buffer t msg).2.toList) := by
  unfold LogstashAdapter.bufferMessage LogstashAdapter.lookupBuffer
  rw [h]

theorem runLines_proj {α : Type} [Inhabited α]
    (events : List (Int × Message α)) (a b : LogstashAdapter α) (k : String)
    (hl : cacheLookup a.cache k = cacheLookup b.cache k)
    (hmk : a.mkBuffer = b.mkBuffer) :
    ((runLines a events).2.filter (fun kr => kr.1 == k)).map Prod.snd =
      ((runLines b (events.filter
          (fun tm => sourceKey tm.2 == k))).2).map Prod.snd := by
  induction events generalizing a b with
  | nil => simp [runLines]
  | cons tm rest ih =>
    obtain ⟨t, msg⟩ := tm
    by_cases hk : sourceKey msg = k
    · subst hk
      have hout : (a.bufferMessage t msg).2 = (b.bufferMessage t msg).2 ∧
          cacheLookup (a.bufferMessage t msg).1.cache (sourceKey msg) =
            cacheLookup (b.bufferMessage t msg).1.cache (sourceKey msg) ∧
          (a.bufferMessage t msg).1.mkBuffer =
            (b.bufferMessage t msg).1.mkBuffer := by
        cases hca : cacheLookup a.cache (sourceKey msg) with
        | some ml =>
          have hcb : cacheLookup b.cache (sourceKey msg) = some ml := by
            rw [← hl]; exact hca
          rw [bufferMessage_found a t msg ml hca,
            bufferMessage_found b t msg ml hcb]
          simp [cacheLookup_insert, hmk]
        | none =>
          have hcb : cacheLookup b.cache (sourceKey msg) = none := by
            rw [← hl]; exact hca
          rw [bufferMessage_new a t msg hca, bufferMessage_new b t msg hcb]
          simp [cacheLookup_insert, hmk]
      obtain ⟨ho, hc, hm⟩ := hout
      have hrest := ih (a.bufferMessage t msg).1 (b.bufferMessage t msg).1
        hc hm
      have hfe : List.filter (fun tm => sourceKey tm.2 == sourceKey msg)
            ((t, msg) :: rest) =
          (t, msg) :: List.filter
            (fun tm => sourceKey tm.2 == sourceKey msg) rest := by
        simp [List.filter_cons]
      rcases hma : a.bufferMessage t msg with ⟨a1, out⟩
      rcases hmb : b.bufferMessage t msg with ⟨b1, out'⟩
      rw [hma, hmb] at ho hrest
      dsimp only at ho hrest
      rw [hfe]
      simp only [runLines]
      rw [hma, hmb]
      dsimp only
      rw [List.filter_append, List.map_append, keyed_filter_self, ho, hrest,
        List.map_append]
      simp
    · have hbk : List.filter (fun tm => sourceKey tm.2 == k)
            ((t, msg) :: rest) =
          List.filter (fun tm => sourceKey tm.2 == k) rest := by
        simp [List.filter_cons, hk]
      have hrw : cacheLookup (a.bufferMessage t msg).1.cache k =
          cacheLookup a.cache k := by
        cases hc1 : cacheLookup a.cache (sourceKey msg) with
        | some ml =>
          rw [bufferMessage_found a t msg ml hc1]
          simp [cacheLookup_insert_ne _ _ _ _ hk]
        | none =>
          rw [bufferMessage_new a t msg hc1]
          simp [cacheLookup_insert_ne _ _ _ _ hk]
      have hmk1 : (a.bufferMessage t msg).1.mkBuffer = a.mkBuffer := by
        cases hc1 : cacheLookup a.cache (sourceKey msg) with
        | some ml => rw [bufferMessage_found a t msg ml hc1]
        | none => rw [bufferMessage_new a t msg hc1]
      have hrest := ih (a.bufferMessage t msg).1 b
        (by rw [hrw, hl]) (by rw [hmk1, hmk])
      rcases hma : a.bufferMessage t msg with ⟨a1, out⟩
      rw [hma] at hrest
      rw [hbk]
      simp only [runLines]
      rw [hma]
      dsimp only
      rw [List.filter_append, List.map_append, keyed_filter_ne _ _ _ hk]
      simpa using hrest

/-- C7: per-key noninterference — for every interleaving of line events
routed through the adapter, the records produced for a given source key
(paired by `runLines` with the key of the buffer that emitted them)
coincide with the records of the run that processes only that key's
lines. -/
theorem claim_C7_noninterference {α : Type} [Inhabited α]
    (a : LogstashAdapter α) (events : List (Int × Message α)) (k : String) :
    ((runLines a events).2.filter (fun kr => kr.1 == k)).map Prod.snd =
      ((runLines a (events.filter
          (fun tm => sourceKey tm.2 == k))).2).map Prod.snd :=
  runLines_proj events a a k rfl rfl

theorem lookupBuffer_snd {α : Type} [Inhabited α] (a : LogstashAdapter α)
    (msg : Message α) :
    (a.lookupBuffer msg).2 =
      (cacheLookup a.cache (sourceKey msg)).getD a.mkBuffer := by
  unfold LogstashAdapter.lookupBuffer
  cases cacheLookup a.cache (sourceKey msg) <;> rfl

theorem bufferMessage_snd {α : Type} [Inhabited α] (a : LogstashAdapter α)
    (t : Int) (msg : Message α) :
    (a.bufferMessage t msg).2 =
      (((a.lookupBuffer msg).2).Buffer t msg).2.toList := by
  cases hca : cacheLookup a.cache (sourceKey msg) with
  | some ml =>
    rw [bufferMessage_found a t msg ml hca, lookupBuffer_snd, hca]
    rfl
  | none =>
    rw [bufferMessage_new a t msg hca, lookupBuffer_snd, hca]
    rfl

theorem line_groups {α : Type} [Inhabited α] (a : LogstashAdapter α)
    (t : Int) (msg : Message α) :
    (a.bufferMessage t msg).2 =
      (flushGroups a (Event.line t msg)).map joinGroup := by
  rw [bufferMessage_snd]
  unfold flushGroups
  cases hc : ((a.lookupBuffer msg).2).isContinuationMessage msg with
  | true =>
    rw [buffer_cont _ t msg hc]
    simp [hc]
  | false =>
    rw [buffer_newline _ t msg hc]
    simp [hc, joinGroup]

theorem expireCache_snd {α : Type} [Inhabited α] (a : LogstashAdapter α)
    (t : Int) :
    (a.expireCache t).2 =
      (LogstashAdapter.expireEntries t a.cacheTTL a.cache).2 := by
  unfold LogstashAdapter.expireCache
  rcases h : LogstashAdapter.expireEntries t a.cacheTTL a.cache
    with ⟨c', msgs⟩
  simp [h]

theorem expireCache_fst {α : Type} [Inhabited α] (a : LogstashAdapter α)
    (t : Int) :
    (a.expireCache t).1 =
      { a with
        cache := (LogstashAdapter.expireEntries t a.cacheTTL a.cache).1 } := by
  unfold LogstashAdapter.expireCache
  rcases h : LogstashAdapter.expireEntries t a.cacheTTL a.cache
    with ⟨c', msgs⟩
  simp [h]

theorem expire_groups_list {α : Type} [Inhabited α] (t ttl : Int)
    (c : List (String × MultiLine α)) :
    (c.filterMap (fun kv => (kv.2.Expire t ttl).2)) =
      ((c.filter (fun kv => ((kv.2.Expire t ttl).2).isSome)).map
        (fun kv => (kv.2.separator, kv.2.pending))).map joinGroup := by
  induction c with
  | nil => rfl
  | cons kv rest ih =>
    cases hx : (kv.2.Expire t ttl).2 with
    | none => simp [List.filterMap_cons, List.filter_cons, hx, ih]
    | some r =>
      have hr : r = joinGroup (kv.2.separator, kv.2.pending) := by
        unfold MultiLine.Expire at hx
        split at hx
        · unfold MultiLine.Flush at hx
          split at hx
          · cases hx; rfl
          · cases hx
        · cases hx
      simp [List.filterMap_cons, List.filter_cons, hx, ih, hr]

theorem tick_groups {α : Type} [Inhabited α] (a : LogstashAdapter α)
    (t : Int) :
    (a.expireCache t).2 =
      (flushGroups a (Event.tick t)).map joinGroup := by
  rw [expireCache_snd, expireEntries_msgs, expire_groups_list]
  rfl

theorem runEvents_groups {α : Type} [Inhabited α] (a : LogstashAdapter α)
    (es : List (Event α)) :
    (runEvents a es).2 = (runGroups a es).map joinGroup := by
  induction es generalizing a with
  | nil => rfl
  | cons e rest ih =>
    have hstep : (readMessages a e).2 = (flushGroups a e).map joinGroup := by
      cases e with
      | line t msg => exact line_groups a t msg
      | tick t => exact tick_groups a t
    simp only [runEvents, runGroups, List.map_append]
    rcases hr : readMessages a e with ⟨a1, out⟩
    rw [hr] at hstep
    dsimp only at hstep
    have ih1 := ih a1
    rcases h2 : runEvents a1 rest with ⟨a2, outs⟩
    rw [h2] at ih1
    dsimp only at ih1
    dsimp only
    rw [hstep, ih1]

theorem cacheTags_cons {α : Type} (kv : String × MultiLine α)
    (rest : List (String × MultiLine α)) :
    cacheTags (kv :: rest) = pendingTags kv.2 ++ cacheTags rest := rfl

theorem cacheTags_insert_found {α : Type} [DecidableEq α]
    (c : List (String × MultiLine α)) (k : String) (ml v : MultiLine α)
    (h : cacheLookup c k = some ml) (τ : α) :
    (cacheTags (cacheInsert c k v)).count τ + (pendingTags ml).count τ =
      (cacheTags c).count τ + (pendingTags v).count τ := by
  induction c with
  | nil => cases h
  | cons kv rest ih =>
    obtain ⟨k0, ml0⟩ := kv
    by_cases h0 : k0 = k
    · have hml : ml0 = ml := by
        simpa [cacheLookup, h0] using h
      subst hml
      simp only [cacheInsert, h0, if_true, cacheTags_cons,
        List.count_append]
      omega
    · have h' : cacheLookup rest k = some ml := by
        simpa [cacheLookup, h0] using h
      have := ih h'
      simp only [cacheInsert, h0, if_false, cacheTags_cons,
        List.count_append]
      omega

theorem cacheTags_insert_new {α : Type}
    (c : List (String × MultiLine α)) (k : String) (v : MultiLine α)
    (h : cacheLookup c k = none) :
    cacheTags (cacheInsert c k v) = cacheTags c ++ pendingTags v := by
  induction c with
  | nil => simp [cacheInsert, cacheTags, pendingTags]
  | cons kv rest ih =>
    obtain ⟨k0, ml0⟩ := kv
    by_cases h0 : k0 = k
    · simp [cacheLookup, h0] at h
    · have h' : cacheLookup rest k = none := by
        simpa [cacheLookup, h0] using h
      simp only [cacheInsert, h0, if_false, cacheTags_cons, ih h',
        List.append_assoc]

theorem pendingTags_buffer {α : Type} [Inhabited α] [DecidableEq α]
    (ml : MultiLine α) (t : Int) (msg : Message α) (τ : α) :
    (pendingTags (ml.Buffer t msg).1).count τ ≤
      (if ml.isContinuationMessage msg then (pendingTags ml).count τ
       else 0) + List.count τ [msg.meta] := by
  cases hc : ml.isContinuationMessage msg with
  | true =>
    rw [buffer_cont ml t msg hc]
    by_cases h1 : ml.pending.length < ml.maxLines
    · simp only [pendingTags, h1, if_true]
      simp [List.count_append]
    · by_cases h2 : ml.pending.length = ml.maxLines
      · simp only [pendingTags, h1, h2, if_false, if_true]
        simp [List.count_append]
      · simp only [pendingTags, h1, h2, if_false]
        simp [List.count_append]
  | false =>
    rw [buffer_newline ml t msg hc]
    simp [pendingTags]

theorem groupTags_nil {α : Type} :
    groupTags ([] : List (String × List (Message α))) = [] := rfl

theorem groupTags_cons {α : Type} (sg : String × List (Message α))
    (gs : List (String × List (Message α))) :
    groupTags (sg :: gs) =
      sg.2.map (fun m => m.meta) ++ groupTags gs := rfl

theorem flushGroups_line {α : Type} [Inhabited α] (a : LogstashAdapter α)
    (t : Int) (msg : Message α) :
    flushGroups a (Event.line t msg) =
      (if ((a.lookupBuffer msg).2).isContinuationMessage msg then []
       else [(((a.lookupBuffer msg).2).separator,
              ((a.lookupBuffer msg).2).pending)]) := rfl

theorem readMessages_mkBuffer {α : Type} [Inhabited α]
    (a : LogstashAdapter α) (e : Event α) :
    (readMessages a e).1.mkBuffer = a.mkBuffer := by
  cases e with
  | tick t =>
    show (a.expireCache t).1.mkBuffer = a.mkBuffer
    rw [expireCache_fst]
  | line t msg =>
    show (a.bufferMessage t msg).1.mkBuffer = a.mkBuffer
    cases hca : cacheLookup a.cache (sourceKey msg) with
    | some ml => rw [bufferMessage_found a t msg ml hca]
    | none => rw [bufferMessage_new a t msg hca]

theorem line_count {α : Type} [Inhabited α] [DecidableEq α]
    (a : LogstashAdapter α) (t : Int) (msg : Message α) (τ : α)
    (hmk : a.mkBuffer.pending = []) :
    (groupTags (flushGroups a (Event.line t msg))).count τ +
      (cacheTags (a.bufferMessage t msg).1.cache).count τ ≤
    (cacheTags a.cache).count τ + List.count τ [msg.meta] := by
  cases hca : cacheLookup a.cache (sourceKey msg) with
  | some ml =>
    have hml : (a.lookupBuffer msg).2 = ml := by
      rw [lookupBuffer_snd, hca]; rfl
    have hcnt := cacheTags_insert_found a.cache (sourceKey msg) ml
      (ml.Buffer t msg).1 hca τ
    have hpend := pendingTags_buffer ml t msg τ
    rw [bufferMessage_found a t msg ml hca, flushGroups_line, hml]
    cases hc : ml.isContinuationMessage msg with
    | true =>
      rw [hc] at hpend
      simp only [if_true] at hpend
      simp only [hc, if_true, groupTags]
      simp only [List.flatMap_nil, List.count_nil, Nat.zero_add]
      omega
    | false =>
      rw [hc] at hpend
      simp only [Bool.false_eq_true, if_false] at hpend ⊢
      simp only [groupTags_cons, groupTags_nil, List.append_nil,
        List.count_append]
      have hpt : (ml.pending.map (fun m => m.meta)).count τ =
          (pendingTags ml).count τ := rfl
      omega
  | none =>
    have hml : (a.lookupBuffer msg).2 = a.mkBuffer := by
      rw [lookupBuffer_snd, hca]; rfl
    have hc : (a.mkBuffer).isContinuationMessage msg = true := by
      simp [MultiLine.isContinuationMessage, MultiLine.PendingSize, hmk]
    have h1 : cacheTags (cacheInsert a.cache (sourceKey msg) a.mkBuffer) =
        cacheTags a.cache ++ pendingTags a.mkBuffer :=
      cacheTags_insert_new a.cache (sourceKey msg) a.mkBuffer hca
    have h2 := cacheTags_insert_found
      (cacheInsert a.cache (sourceKey msg) a.mkBuffer) (sourceKey msg)
      a.mkBuffer (a.mkBuffer.Buffer t msg).1
      (cacheLookup_insert a.cache (sourceKey msg) a.mkBuffer) τ
    have hpend := pendingTags_buffer a.mkBuffer t msg τ
    rw [hc] at hpend
    simp only [if_true] at hpend
    have hmk0 : pendingTags a.mkBuffer = [] := by
      simp [pendingTags, hmk]
    rw [bufferMessage_new a t msg hca, flushGroups_line, hml, hc]
    simp only [if_true, groupTags]
    simp only [List.flatMap_nil, List.count_nil, Nat.zero_add]
    rw [h1] at h2
    rw [hmk0] at h2 hpend
    simp only [List.count_append, List.count_nil] at h2 hpend
    omega

theorem tick_count {α : Type} [Inhabited α] [DecidableEq α] (t ttl : Int)
    (c : List (String × MultiLine α)) (τ : α) :
    (groupTags ((c.filter
        (fun kv => ((kv.2.Expire t ttl).2).isSome)).map
        (fun kv => (kv.2.separator, kv.2.pending)))).count τ +
      (cacheTags (c.filter
        (fun kv => ((kv.2.Expire t ttl).2).isNone))).count τ =
      (cacheTags c).count τ := by
  induction c with
  | nil => rfl
  | cons kv rest ih =>
    cases hx : (kv.2.Expire t ttl).2 with
    | none =>
      simp only [List.filter_cons, hx, Option.isSome_none,
        Option.isNone_none, Bool.false_eq_true, if_false, if_true,
        cacheTags_cons, List.count_append]
      omega
    | some r =>
      simp only [List.filter_cons, hx, Option.isSome_some,
        Option.isNone_some, Bool.false_eq_true, if_false, if_true,
        List.map_cons, groupTags_cons, cacheTags_cons, List.count_append]
      have : (kv.2.pending.map (fun m => m.meta)).count τ =
          (pendingTags kv.2).count τ := rfl
      omega

theorem step_count {α : Type} [Inhabited α] [DecidableEq α]
    (a : LogstashAdapter α) (e : Event α) (τ : α)
    (hmk : a.mkBuffer.pending = []) :
    (groupTags (flushGroups a e)).count τ +
      (cacheTags (readMessages a e).1.cache).count τ ≤
      (cacheTags a.cache).count τ + (eventTags [e]).count τ := by
  cases e with
  | line t msg =>
    have h := line_count a t msg τ hmk
    simpa [eventTags] using h
  | tick t =>
    have h := tick_count t a.cacheTTL a.cache τ
    show (groupTags (flushGroups a (Event.tick t))).count τ +
      (cacheTags (a.expireCache t).1.cache).count τ ≤ _
    rw [expireCache_fst]
    show (groupTags (flushGroups a (Event.tick t))).count τ +
      (cacheTags (LogstashAdapter.expireEntries t a.cacheTTL
        a.cache).1).count τ ≤ _
    rw [expireEntries_keep]
    simp only [eventTags, List.count_nil]
    have hfg : flushGroups a (Event.tick t) =
        (a.cache.filter
          (fun kv => ((kv.2.Expire t a.cacheTTL).2).isSome)).map
          (fun kv => (kv.2.separator, kv.2.pending)) := rfl
    rw [hfg]
    omega

theorem runEvents_fst_cons {α : Type} [Inhabited α] (a : LogstashAdapter α)
    (e : Event α) (rest : List (Event α)) :
    (runEvents a (e :: rest)).1 = (runEvents (readMessages a e).1 rest).1 := by
  simp only [runEvents]

theorem run_count {α : Type} [Inhabited α] [DecidableEq α]
    (es : List (Event α)) (a : LogstashAdapter α) (τ : α)
    (hmk : a.mkBuffer.pending = []) :
    (groupTags (runGroups a es)).count τ +
      (cacheTags (runEvents a es).1.cache).count τ ≤
      (cacheTags a.cache).count τ + (eventTags es).count τ := by
  induction es generalizing a with
  | nil => simp [runGroups, runEvents, eventTags, groupTags]
  | cons e rest ih =>
    have hstep := step_count a e τ hmk
    have hmk1 : (readMessages a e).1.mkBuffer.pending = [] := by
      rw [readMessages_mkBuffer]; exact hmk
    have ihs := ih (readMessages a e).1 hmk1
    have hfst := runEvents_fst_cons a e rest
    have hgrp : runGroups a (e :: rest) =
        flushGroups a e ++ runGroups (readMessages a e).1 rest := rfl
    rw [hgrp, hfst]
    have hga : groupTags (flushGroups a e ++
          runGroups (readMessages a e).1 rest) =
        groupTags (flushGroups a e) ++
          groupTags (runGroups (readMessages a e).1 rest) := by
      simp [groupTags]
    rw [hga, List.count_append]
    have hev : (eventTags (e :: rest)).count τ =
        (eventTags [e]).count τ + (eventTags rest).count τ := by
      cases e with
      | line tl msgl =>
        simp [eventTags, List.count_cons]
        omega
      | tick tl => simp [eventTags]
    omega

/-- C6: exactly-once emission — over any event-loop run (line arrivals and
expiry ticks processed one at a time), the emitted records are exactly
the joined flush groups; and when the line events' metadata tags are
pairwise distinct (each tag occurs at most once among the events) and
absent from the initial cache, each tag occurs in at most one flushed
message across all emitted groups: no admitted line's content is ever
included in two emitted records. An expiry flush removes its buffer from
the cache and a line-triggered flush resets pending to the new line, so
the flushed group's tags leave the buffered state as they are emitted. -/
theorem claim_C6_exactly_once {α : Type} [Inhabited α] [DecidableEq α]
    (a : LogstashAdapter α) (es : List (Event α)) (τ : α)
    (hmk : a.mkBuffer.pending = [])
    (hstart : (cacheTags a.cache).count τ = 0)
    (hdist : (eventTags es).count τ ≤ 1) :
    (runEvents a es).2 = (runGroups a es).map joinGroup ∧
    (groupTags (runGroups a es)).count τ ≤ 1 := by
  refine ⟨runEvents_groups a es, ?_⟩
  have h := run_count es a τ hmk
  omega

/-- Witness for C6: a run with two coalescing lines and one
group-breaking line for one key followed by an expiry tick; tag 1
(the first line) is emitted exactly once. -/
theorem claim_C6_exactly_once_witness :
    (runEvents aEmpty [Event.line 0 msgA, Event.line 1 msgCont,
        Event.line 2 msgB, Event.tick 10]).2 =
      (runGroups aEmpty [Event.line 0 msgA, Event.line 1 msgCont,
        Event.line 2 msgB, Event.tick 10]).map joinGroup ∧
    (groupTags (runGroups aEmpty [Event.line 0 msgA, Event.line 1 msgCont,
        Event.line 2 msgB, Event.tick 10])).count 1 ≤ 1 :=
  claim_C6_exactly_once aEmpty
    [Event.line 0 msgA, Event.line 1 msgCont, Event.line 2 msgB,
     Event.tick 10] 1 rfl rfl (by decide)
